import Mathlib

/-!
Verification of the sparktop process monitor core.

Shallow embedding of `src/render.rs` (history compression and bar
quantization) and `src/sproc.rs` / `src/sprocs.rs` (process records,
EWMA smoothing, bounded histories, tombstone lifecycle).  Rust `f64`
values are modelled as rationals (`ℚ`), `usize`/`u64` as `ℕ`, a
`VecDeque` as a `List` whose head is the front, and the `HashMap` of
records as a function `ℕ → Option SProc`.
-/

namespace Sparktop

/-- Scheme returned by `compress_history` (render.rs, `CompressionScheme`). -/
structure CompressionScheme where
  tier0_bars : ℕ
  tier1_bars : ℕ
  tier2_bars : ℕ
  tier0_samples : ℕ
  tier1_samples : ℕ
  tier2_samples : ℕ
deriving Repr, DecidableEq

/-- Samples in tier0: `hist_len.min(TIER0_END)` (render.rs line 149). -/
def tier0_samples_of (histLen : ℕ) : ℕ := min histLen 120

/-- Samples in tier1: `(hist_len - TIER0_END).min(TIER1_END - TIER0_END)` when
`hist_len > TIER0_END`, else 0 (render.rs lines 150-154). -/
def tier1_samples_of (histLen : ℕ) : ℕ :=
  if 120 < histLen then min (histLen - 120) 180 else 0

/-- Samples in tier2: `hist_len - TIER1_END` when `hist_len > TIER1_END`,
else 0 (render.rs lines 155-159). -/
def tier2_samples_of (histLen : ℕ) : ℕ :=
  if 300 < histLen then histLen - 300 else 0

/-- The tier allocation phase of `compress_history` (render.rs lines
142-317): everything after the early returns, computing the six numbers
`(tier0_bars, tier1_bars, tier2_bars, scheme_t0_samples, scheme_t1_samples,
scheme_t2_samples)` from the history length and the width.  Rust `usize`
subtraction that is guarded (or `saturating_sub`) becomes `ℕ` subtraction. -/
def compress_alloc (histLen width : ℕ) : CompressionScheme :=
  let tier0Samples := tier0_samples_of histLen
  let tier1Samples := tier1_samples_of histLen
  let tier2Samples := tier2_samples_of histLen
  let idealT1 := if 0 < tier1Samples then max (tier1Samples / 4) 1 else 0
  let idealT2 := if 0 < tier2Samples then max (tier2Samples / 15) 1 else 0
  if tier0Samples ≤ width then
    -- Plenty of space: use ideal or better (up to 1:1)
    let t0 := tier0Samples
    let remaining := width - t0
    if tier1Samples = 0 ∧ tier2Samples = 0 then
      ⟨min t0 tier0Samples, 0, 0, tier0Samples, 0, 0⟩
    else if 0 < tier1Samples ∧ tier2Samples = 0 then
      ⟨t0, min remaining tier1Samples, 0, tier0Samples, tier1Samples, 0⟩
    else if tier1Samples = 0 ∧ 0 < tier2Samples then
      ⟨t0, 0, min remaining tier2Samples, tier0Samples, 0, tier2Samples⟩
    else
      let idealRemain := idealT1 + idealT2
      if tier1Samples + tier2Samples ≤ remaining then
        -- Can show both at 1:1
        ⟨t0, tier1Samples, tier2Samples, tier0Samples, tier1Samples, tier2Samples⟩
      else if idealRemain ≤ remaining then
        -- Between ideal and 1:1 - distribute extra
        let extra := remaining - idealRemain
        let extraT1 := min (extra * 2 / 3) (tier1Samples - idealT1)
        let extraT2 := min (extra - extraT1) (tier2Samples - idealT2)
        ⟨t0, min (idealT1 + extraT1) tier1Samples, min (idealT2 + extraT2) tier2Samples,
          tier0Samples, tier1Samples, tier2Samples⟩
      else
        -- Less than ideal - allocate proportionally (only if remaining > 0)
        let t1 := if 0 < tier1Samples ∧ 0 < remaining
          then min (max (remaining * 2 / 3) 1) tier1Samples else 0
        let t2 := if 0 < tier2Samples ∧ 0 < remaining
          then min (remaining - t1) tier2Samples else 0
        ⟨t0, t1, t2, tier0Samples, tier1Samples, tier2Samples⟩
  else
    -- Constrained space: need to compress tier0 too
    if tier1Samples = 0 ∧ tier2Samples = 0 ∧ width < tier0Samples then
      -- Virtual tiering within tier0
      let recentSamples := max (tier0Samples / 3) 1
      let olderSamples := tier0Samples - recentSamples
      let recentBars := min (max (width * 2 / 3) 1) recentSamples
      let olderBars := width - recentBars
      ⟨recentBars, olderBars, 0, recentSamples, olderSamples, 0⟩
    else
      let numTiers := (if 0 < tier0Samples then 1 else 0)
        + (if 0 < tier1Samples then 1 else 0) + (if 0 < tier2Samples then 1 else 0)
      if width < numTiers then
        -- Very narrow: 1 bar per tier or less
        let t0 := if 0 < tier0Samples then 1 else 0
        let t1 := if 0 < tier1Samples ∧ t0 < width then 1 else 0
        let t2 := if 0 < tier2Samples then width - (t0 + t1) else 0
        ⟨t0, t1, t2, tier0Samples, tier1Samples, tier2Samples⟩
      else if width = numTiers then
        -- Exactly 1 bar per tier
        ⟨if 0 < tier0Samples then 1 else 0, if 0 < tier1Samples then 1 else 0,
          if 0 < tier2Samples then 1 else 0, tier0Samples, tier1Samples, tier2Samples⟩
      else
        -- Allocate proportionally: tier0 gets 2/3, tier1/2 split remaining
        let t0 := if 0 < tier0Samples then max (width * 2 / 3) 1 else 0
        let remaining := width - t0
        if 0 < tier2Samples ∧ 0 < remaining then
          let t1 := if 0 < tier1Samples
            then max (remaining * 2 / 3) (if 1 < remaining then 1 else 0) else 0
          let t2 := remaining - t1
          ⟨t0, t1, t2, tier0Samples, tier1Samples, tier2Samples⟩
        else if 0 < tier1Samples then
          ⟨t0, remaining, 0, tier0Samples, tier1Samples, 0⟩
        else
          ⟨t0, 0, 0, tier0Samples, 0, 0⟩

/-- The `compress_samples` closure of `compress_history` (render.rs lines
320-337): for each bar index `i < bars` it pushes the arithmetic mean of the
samples at indices `[start + i*count/bars, start + (i+1)*count/bars)`
(clamped to `start + count` and to the history length), skipping the bar when
that range is empty.  The Rust sum `(sample_start..actual_end).map(|j| hist[j]).sum()`
is the sum of the corresponding slice of the list. -/
def compress_samples (hist : List ℚ) (start count bars : ℕ) : List ℚ :=
  if bars = 0 ∨ count = 0 then []
  else
    (List.range bars).filterMap (fun i =>
      let sampleStart := start + i * count / bars
      let sampleEnd := start + (i + 1) * count / bars
      let actualEnd := min (min sampleEnd (start + count)) hist.length
      if sampleStart < actualEnd then
        some (((hist.drop sampleStart).take (actualEnd - sampleStart)).sum
          / ((actualEnd - sampleStart : ℕ) : ℚ))
      else none)

/-- `compress_history` from render.rs (lines 126-367): early return on empty
history or zero width, otherwise the tier allocation followed by the
concatenation of per-tier compressed values (tier0 first, then tier1, then
tier2, the latter two guarded by their bar counts being positive). -/
def compress_history (hist : List ℚ) (width : ℕ) : List ℚ × CompressionScheme :=
  if hist.isEmpty ∨ width = 0 then
    ([], ⟨0, 0, 0, 0, 0, 0⟩)
  else
    let scheme := compress_alloc hist.length width
    let compressed :=
      compress_samples hist 0 scheme.tier0_samples scheme.tier0_bars
      ++ (if 0 < scheme.tier1_bars then
            compress_samples hist scheme.tier0_samples scheme.tier1_samples scheme.tier1_bars
          else [])
      ++ (if 0 < scheme.tier2_bars then
            compress_samples hist (scheme.tier0_samples + scheme.tier1_samples)
              scheme.tier2_samples scheme.tier2_bars
          else [])
    (compressed, scheme)

/-- The glyph table `BARS` of render.rs (line 411). -/
def BARS : List Char := ['▁', '▂', '▃', '▄', '▅', '▆', '▇', '█']

/-- The quantization loop of `float_bar` (render.rs lines 420-424):
`while f > sub_seg { f -= sub_seg; i += 1 }` with `sub_seg = 1/8`. -/
def floatBarLoop (f : ℚ) (i : ℕ) : ℕ :=
  if 1 / 8 < f then floatBarLoop (f - 1 / 8) (i + 1) else i
termination_by (⌈f * 8⌉).toNat
decreasing_by
  rename_i h
  have h8 : (1 : ℚ) < f * 8 := by linarith
  have hc : ⌈(f - 1 / 8) * 8⌉ = ⌈f * 8⌉ - 1 := by
    have : (f - 1 / 8) * 8 = f * 8 - 1 := by ring
    rw [this, Int.ceil_sub_one]
  have hge : 1 < ⌈f * 8⌉ := by
    rw [Int.lt_ceil]
    exact_mod_cast h8
  simp only [hc]
  omega

/-- `float_bar` from render.rs (lines 414-426): clamp the input from above at
1, return a blank below the 0.03 dead zone, otherwise quantize with the loop
and index the glyph table.  The Rust `BARS[i]` (which would panic out of
bounds) is modelled as the `Option`-returning `BARS[i]?`. -/
def float_bar (f : ℚ) : Option Char :=
  let f2 := min f 1
  if f2 < 3 / 100 then some ' '
  else BARS[floatBarLoop f2 0]?

/-- History capacity, `SAMPLE_LIMIT` in sproc.rs. -/
def SAMPLE_LIMIT : ℕ := 600

/-- `ewma` from sproc.rs (lines 101-103). -/
def ewma (new_val prev_ewma ewma_weight : ℚ) : ℚ :=
  new_val * ewma_weight + prev_ewma * (1 - ewma_weight)

/-- `push_sample` from sproc.rs (lines 105-108): `push_front` then
`truncate limit`, on a front-first list. -/
def push_sample {T : Type} (deq : List T) (x : T) (limit : ℕ) : List T :=
  (x :: deq).take limit

/-- The data of one process in an OS snapshot, as consumed by `SProc`:
`name`, `cpu_usage()`, `memory()` (kB), and the two `disk_usage()` counters. -/
structure PSample where
  name : String
  cpu : ℚ
  mem_kb : ℕ
  disk_read : ℕ
  disk_write : ℕ
deriving Repr, DecidableEq

/-- One tracked process record, `SProc` from sproc.rs.  The `pid` lives as
the key of the table.  `Tombstone { dead_for_ticks }` becomes
`tombstone : Option ℕ`. -/
structure SProc where
  name : String
  cpu_ewma : ℚ
  cpu_hist : List ℚ
  mem_mb : ℚ
  disk_read_ewma : ℚ
  disk_read_hist : List ℕ
  disk_write_ewma : ℚ
  disk_write_hist : List ℕ
  tombstone : Option ℕ
deriving Repr, DecidableEq

/-- `DeadStatus` from sproc.rs. -/
inductive DeadStatus where
  | StillFreshlyDead
  | ShouldReap
deriving Repr, DecidableEq

/-- `SProc::add_sample_helper` (sproc.rs lines 64-79). -/
def add_sample_helper (sp : SProc) (cpu : ℚ) (mem_kb disk_read_bytes disk_write_bytes : ℕ)
    (ewma_weight : ℚ) : SProc :=
  { sp with
    cpu_ewma := ewma cpu sp.cpu_ewma ewma_weight
    mem_mb := (mem_kb : ℚ) / 1024
    disk_read_ewma := ewma (disk_read_bytes : ℚ) sp.disk_read_ewma ewma_weight
    disk_write_ewma := ewma (disk_write_bytes : ℚ) sp.disk_write_ewma ewma_weight
    cpu_hist := push_sample sp.cpu_hist cpu SAMPLE_LIMIT
    disk_read_hist := push_sample sp.disk_read_hist disk_read_bytes SAMPLE_LIMIT
    disk_write_hist := push_sample sp.disk_write_hist disk_write_bytes SAMPLE_LIMIT }

/-- `SProc::add_sample` (sproc.rs lines 38-47). -/
def add_sample (sp : SProc) (p : PSample) (ewma_weight : ℚ) : SProc :=
  add_sample_helper sp p.cpu p.mem_kb p.disk_read p.disk_write ewma_weight

/-- `SProc::add_dead_sample` (sproc.rs lines 49-62): a synthetic all-zero
sample through `add_sample_helper`, then create/increment the tombstone and
report `ShouldReap` once `dead_for_ticks` exceeds `SAMPLE_LIMIT`. -/
def add_dead_sample (sp : SProc) (ewma_weight : ℚ) : SProc × DeadStatus :=
  let sp2 := add_sample_helper sp 0 0 0 0 ewma_weight
  let ticks := match sp2.tombstone with
    | none => 1
    | some t => t + 1
  let sp3 := { sp2 with tombstone := some ticks }
  (sp3, if SAMPLE_LIMIT < ticks then DeadStatus.ShouldReap else DeadStatus.StillFreshlyDead)

/-- `From<&Process> for SProc` (sproc.rs lines 82-99): a fresh record seeded
with the first observed sample, EWMAs initialized to the raw values. -/
def sproc_from (p : PSample) : SProc :=
  { name := p.name
    cpu_ewma := p.cpu
    cpu_hist := [p.cpu]
    mem_mb := (p.mem_kb : ℚ) / 1024
    disk_read_ewma := (p.disk_read : ℚ)
    disk_read_hist := [p.disk_read]
    disk_write_ewma := (p.disk_write : ℚ)
    disk_write_hist := [p.disk_write]
    tombstone := none }

/-- The per-tick number a tombstone stands for: `dead_for_ticks`, with an
`Alive` record counting as 0. -/
def deadTicksOf (sp : SProc) : ℕ :=
  match sp.tombstone with
  | none => 0
  | some t => t

/-- `SProcs::update` (sprocs.rs lines 23-58), viewed as a map transformer.
A pid present in both snapshot and table gets `add_sample`
(`entry(pid).and_modify(..)`); present only in the snapshot, a fresh record
(`or_insert_with(|| proc.into())`); present only in the table, it is a dead
proc: `add_dead_sample`, and the record is removed when that returns
`ShouldReap`. -/
def sprocs_update (snap : ℕ → Option PSample) (ewma_weight : ℚ)
    (sprocs : ℕ → Option SProc) : ℕ → Option SProc :=
  fun pid =>
    match sprocs pid, snap pid with
    | some sp, some p => some (add_sample sp p ewma_weight)
    | none, some p => some (sproc_from p)
    | some sp, none =>
      match add_dead_sample sp ewma_weight with
      | (_, DeadStatus.ShouldReap) => none
      | (sp2, DeadStatus.StillFreshlyDead) => some sp2
    | none, none => none

/-! ### Helper lemmas -/

lemma filterMap_eq_map_of_some {α β : Type} (l : List α) (f : α → Option β) (g : α → β)
    (h : ∀ a ∈ l, f a = some (g a)) : l.filterMap f = l.map g := by
  induction l with
  | nil => rfl
  | cons a l ih =>
    rw [List.filterMap_cons, h a (List.mem_cons_self a l), List.map_cons,
      ih (fun b hb => h b (List.mem_cons_of_mem a hb))]

lemma push_sample_spec {α : Type} (deq : List α) (x : α) :
    (push_sample deq x SAMPLE_LIMIT).length ≤ 600
    ∧ (push_sample deq x SAMPLE_LIMIT).head? = some x
    ∧ (deq.length = 600 → push_sample deq x SAMPLE_LIMIT = x :: deq.dropLast) := by
  refine ⟨?_, ?_, ?_⟩
  · simp only [push_sample, SAMPLE_LIMIT, List.length_take]
    omega
  · show ((x :: deq).take 600).head? = some x
    rw [show (600 : ℕ) = 599 + 1 from rfl, List.take_succ_cons]
    rfl
  · intro h
    show (x :: deq).take 600 = x :: deq.dropLast
    rw [show (600 : ℕ) = 599 + 1 from rfl, List.take_succ_cons, List.dropLast_eq_take, h]

lemma floatBarLoop_le :
    ∀ (n : ℕ) (f : ℚ) (i : ℕ), (⌈f * 8⌉).toNat ≤ n →
      floatBarLoop f i ≤ i + (⌈f * 8⌉ - 1).toNat := by
  intro n
  induction n with
  | zero =>
    intro f i hn
    rw [floatBarLoop]
    split
    · rename_i h
      have h8 : (1 : ℚ) < f * 8 := by linarith
      have hge : 1 < ⌈f * 8⌉ := by
        rw [Int.lt_ceil]
        exact_mod_cast h8
      omega
    · omega
  | succ n ih =>
    intro f i hn
    rw [floatBarLoop]
    split
    · rename_i h
      have h8 : (1 : ℚ) < f * 8 := by linarith
      have hge : 1 < ⌈f * 8⌉ := by
        rw [Int.lt_ceil]
        exact_mod_cast h8
      have hc : ⌈(f - 1 / 8) * 8⌉ = ⌈f * 8⌉ - 1 := by
        have e : (f - 1 / 8) * 8 = f * 8 - 1 := by ring
        rw [e, Int.ceil_sub_one]
      have hrec := ih (f - 1 / 8) (i + 1) (by rw [hc]; omega)
      rw [hc] at hrec
      omega
    · omega

lemma floatBarLoop_le_seven (f : ℚ) (hf : f ≤ 1) : floatBarLoop f 0 ≤ 7 := by
  have h := floatBarLoop_le (⌈f * 8⌉).toNat f 0 le_rfl
  have h8 : ⌈f * 8⌉ ≤ 8 := by
    apply Int.ceil_le.mpr
    push_cast
    linarith
  omega

/-- The arithmetic mean of the samples at indices `[lo, hi)` of a history. -/
def sliceMean (hist : List ℚ) (lo hi : ℕ) : ℚ :=
  ((hist.drop lo).take (hi - lo)).sum / ((hi - lo : ℕ) : ℚ)

lemma bar_range_step {i count bars : ℕ} (hb : 0 < bars) (hbc : bars ≤ count)
    (hi : i < bars) :
    i * count / bars < (i + 1) * count / bars ∧ (i + 1) * count / bars ≤ count := by
  constructor
  · have h1 : (i * count + bars) / bars = i * count / bars + 1 :=
      Nat.add_div_right (i * count) hb
    have h2 : i * count + bars ≤ (i + 1) * count := by nlinarith
    have h3 : (i * count + bars) / bars ≤ (i + 1) * count / bars :=
      Nat.div_le_div_right h2
    omega
  · have h2 : (i + 1) * count ≤ bars * count := by nlinarith
    have h3 : (i + 1) * count / bars ≤ bars * count / bars := Nat.div_le_div_right h2
    rwa [Nat.mul_div_cancel_left count hb] at h3

lemma compress_samples_eq_map (hist : List ℚ) (start count bars : ℕ) (hb : 0 < bars)
    (hbc : bars ≤ count) (hsc : start + count ≤ hist.length) :
    compress_samples hist start count bars
      = (List.range bars).map (fun i =>
          sliceMean hist (start + i * count / bars) (start + (i + 1) * count / bars)) := by
  unfold compress_samples
  rw [if_neg (by omega)]
  apply filterMap_eq_map_of_some
  intro i hi
  rw [List.mem_range] at hi
  obtain ⟨hlt, hle⟩ := bar_range_step hb hbc hi
  have hend : min (min (start + (i + 1) * count / bars) (start + count)) hist.length
      = start + (i + 1) * count / bars := by omega
  simp only [hend, if_pos (by omega : start + i * count / bars < start + (i + 1) * count / bars)]
  rfl

lemma compress_samples_zero_bars (hist : List ℚ) (start count : ℕ) :
    compress_samples hist start count 0 = [] := by
  simp [compress_samples]

lemma compress_samples_length (hist : List ℚ) (start count bars : ℕ)
    (hbc : bars ≤ count) (hsc : start + count ≤ hist.length) :
    (compress_samples hist start count bars).length = bars := by
  rcases Nat.eq_zero_or_pos bars with hb | hb
  · subst hb
    rw [compress_samples_zero_bars]
    rfl
  · rw [compress_samples_eq_map hist start count bars hb hbc hsc, List.length_map,
      List.length_range]

lemma sliceMean_single (hist : List ℚ) (k : ℕ) (hk : k < hist.length) :
    sliceMean hist k (k + 1) = hist[k] := by
  unfold sliceMean
  have h1 : k + 1 - k = 1 := by omega
  rw [h1, List.drop_eq_getElem_cons hk, show (1 : ℕ) = 0 + 1 from rfl, List.take_succ_cons,
    List.take_zero]
  simp

lemma compress_samples_id (hist : List ℚ) (start count : ℕ) (hc : 0 < count)
    (hsc : start + count ≤ hist.length) :
    compress_samples hist start count count = (hist.drop start).take count := by
  rw [compress_samples_eq_map hist start count count hc le_rfl hsc]
  apply List.ext_getElem
  · simp only [List.length_map, List.length_range, List.length_take, List.length_drop]
    omega
  · intro i h1 h2
    simp only [List.getElem_map, List.getElem_range, List.getElem_take, List.getElem_drop]
    have he : i * count / count = i := Nat.mul_div_cancel i hc
    have he2 : (i + 1) * count / count = i + 1 := Nat.mul_div_cancel (i + 1) hc
    rw [he, he2]
    have hi : i < count := by
      simpa only [List.length_map, List.length_range] using h1
    rw [show start + (i + 1) = start + i + 1 from by omega,
      sliceMean_single hist (start + i) (by omega)]

lemma compress_history_eq (hist : List ℚ) (width : ℕ) (hne : hist.isEmpty = false)
    (hw : width ≠ 0) :
    compress_history hist width =
      (compress_samples hist 0 (compress_alloc hist.length width).tier0_samples
          (compress_alloc hist.length width).tier0_bars
        ++ (if 0 < (compress_alloc hist.length width).tier1_bars then
              compress_samples hist (compress_alloc hist.length width).tier0_samples
                (compress_alloc hist.length width).tier1_samples
                (compress_alloc hist.length width).tier1_bars
            else [])
        ++ (if 0 < (compress_alloc hist.length width).tier2_bars then
              compress_samples hist ((compress_alloc hist.length width).tier0_samples
                  + (compress_alloc hist.length width).tier1_samples)
                (compress_alloc hist.length width).tier2_samples
                (compress_alloc hist.length width).tier2_bars
            else []),
       compress_alloc hist.length width) := by
  unfold compress_history
  rw [if_neg (by simp [hne, hw])]

lemma compress_alloc_tier0 (histLen width : ℕ) (h : min histLen 120 ≤ width) :
    (compress_alloc histLen width).tier0_bars = min histLen 120
    ∧ (compress_alloc histLen width).tier0_samples = min histLen 120 := by
  simp only [compress_alloc, tier0_samples_of] at h ⊢
  split_ifs <;> dsimp only <;> omega

set_option maxRecDepth 10000 in
lemma compress_alloc_full : ∀ h : ℕ, h < 601 → 1 ≤ h →
    compress_alloc h h =
      ⟨tier0_samples_of h, tier1_samples_of h, tier2_samples_of h,
        tier0_samples_of h, tier1_samples_of h, tier2_samples_of h⟩ := by decide

/-! ### Claims -/

/-- Claim C4: whenever the width is at least tier0's sample count
(`min(len H, 120)`), `compress_history` gives tier0 exactly one bar per
sample, and the first tier0-samples output values are the first entries of
the history, unmodified and in order. -/
theorem tier0_uncompressed (hist : List ℚ) (width : ℕ)
    (h : min hist.length 120 ≤ width) :
    (compress_history hist width).2.tier0_bars = (compress_history hist width).2.tier0_samples
    ∧ (compress_history hist width).2.tier0_samples = min hist.length 120
    ∧ (compress_history hist width).1.take (min hist.length 120)
      = hist.take (min hist.length 120) := by
  by_cases hemp : hist.isEmpty = true ∨ width = 0
  · have hnil : hist = [] := by
      rcases hemp with he | hw
      · exact List.isEmpty_iff.mp he
      · subst hw
        have : hist.length = 0 := by omega
        exact List.length_eq_zero.mp this
    subst hnil
    unfold compress_history
    rw [if_pos (by simp)]
    exact ⟨rfl, by simp, by simp⟩
  · have hne : hist.isEmpty = false := by simpa using (not_or.mp hemp).1
    have hw : width ≠ 0 := (not_or.mp hemp).2
    have hlen : hist.length ≠ 0 := by
      intro e
      have : hist = [] := List.length_eq_zero.mp e
      subst this
      simp at hne
    rw [compress_history_eq hist width hne hw]
    obtain ⟨hb, hs⟩ := compress_alloc_tier0 hist.length width h
    dsimp only
    rw [hb, hs]
    refine ⟨rfl, rfl, ?_⟩
    have ht0pos : 0 < min hist.length 120 := by omega
    have hid := compress_samples_id hist 0 (min hist.length 120) ht0pos (by omega)
    rw [List.drop_zero] at hid
    rw [hid, List.append_assoc, List.take_left' (by rw [List.length_take]; omega)]

/-- Witness for C4 at a 2-sample history and width 3. -/
theorem tier0_uncompressed_witness :
    (compress_history [(5 : ℚ), 7] 3).1.take (min ([(5 : ℚ), 7] : List ℚ).length 120)
      = [(5 : ℚ), 7].take (min ([(5 : ℚ), 7] : List ℚ).length 120) :=
  (tier0_uncompressed [(5 : ℚ), 7] 3 (by decide)).2.2

/-- Claim C6: compressing a history (1 to 600 samples) at a width equal to
its length returns exactly the original samples, unchanged and in order. -/
theorem compress_id_full_width (hist : List ℚ) (h1 : 1 ≤ hist.length)
    (h2 : hist.length ≤ 600) :
    (compress_history hist hist.length).1 = hist := by
  have hne : hist.isEmpty = false := by
    cases hist with
    | nil => simp at h1
    | cons a l => rfl
  rw [compress_history_eq hist hist.length hne (by omega)]
  dsimp only
  rw [compress_alloc_full hist.length (by omega) h1]
  dsimp only
  by_cases hA : hist.length ≤ 120
  · have e0 : tier0_samples_of hist.length = hist.length := by
      simp only [tier0_samples_of]
      omega
    have e1 : tier1_samples_of hist.length = 0 := by
      simp only [tier1_samples_of]
      rw [if_neg (by omega)]
    have e2 : tier2_samples_of hist.length = 0 := by
      simp only [tier2_samples_of]
      rw [if_neg (by omega)]
    rw [e0, e1, e2, if_neg (by omega : ¬ (0 : ℕ) < 0), if_neg (by omega : ¬ (0 : ℕ) < 0),
      compress_samples_id hist 0 hist.length (by omega) (by omega), List.drop_zero,
      List.append_nil, List.append_nil, List.take_length]
  · by_cases hB : hist.length ≤ 300
    · have e0 : tier0_samples_of hist.length = 120 := by
        simp only [tier0_samples_of]
        omega
      have e1 : tier1_samples_of hist.length = hist.length - 120 := by
        simp only [tier1_samples_of]
        rw [if_pos (by omega)]
        omega
      have e2 : tier2_samples_of hist.length = 0 := by
        simp only [tier2_samples_of]
        rw [if_neg (by omega)]
      rw [e0, e1, e2, if_pos (by omega : 0 < hist.length - 120),
        if_neg (by omega : ¬ (0 : ℕ) < 0),
        compress_samples_id hist 0 120 (by omega) (by omega),
        compress_samples_id hist 120 (hist.length - 120) (by omega) (by omega),
        List.drop_zero, List.append_nil, ← List.take_add,
        show 120 + (hist.length - 120) = hist.length from by omega, List.take_length]
    · have e0 : tier0_samples_of hist.length = 120 := by
        simp only [tier0_samples_of]
        omega
      have e1 : tier1_samples_of hist.length = 180 := by
        simp only [tier1_samples_of]
        rw [if_pos (by omega)]
        omega
      have e2 : tier2_samples_of hist.length = hist.length - 300 := by
        simp only [tier2_samples_of]
        rw [if_pos (by omega)]
      rw [e0, e1, e2, if_pos (by omega : (0 : ℕ) < 180),
        if_pos (by omega : 0 < hist.length - 300),
        compress_samples_id hist 0 120 (by omega) (by omega),
        compress_samples_id hist 120 180 (by omega) (by omega),
        compress_samples_id hist (120 + 180) (hist.length - 300) (by omega) (by omega),
        List.drop_zero, ← List.take_add,
        show (120 : ℕ) + 180 = 300 from rfl, ← List.take_add,
        show 300 + (hist.length - 300) = hist.length from by omega, List.take_length]

/-- Witness for C6 at a concrete 3-sample history. -/
theorem compress_id_full_width_witness :
    (compress_history [(1 : ℚ), 2, 3] ([(1 : ℚ), 2, 3] : List ℚ).length).1 = [(1 : ℚ), 2, 3] :=
  compress_id_full_width [(1 : ℚ), 2, 3] (by decide) (by decide)

/-- Claim C7: a tier's `k` bars over `n` samples (`k ≤ n`, `n > 0`) are each
the arithmetic mean of the sample range `[i*n/k, (i+1)*n/k)` within the
tier's range, and the output of `compress_history` is the concatenation of
the three tiers' values in age order (tier0 first, then tier1, then tier2). -/
theorem bar_mean_concat (hist : List ℚ) (start count bars i : ℕ) (hist2 : List ℚ) (width : ℕ)
    (_hc : 0 < count) (hb : bars ≤ count) (hsc : start + count ≤ hist.length)
    (hi : i < bars) :
    (compress_samples hist start count bars).length = bars
    ∧ (compress_samples hist start count bars).getD i 0
      = sliceMean hist (start + i * count / bars) (start + (i + 1) * count / bars)
    ∧ (compress_history hist2 width).1
      = compress_samples hist2 0 (compress_history hist2 width).2.tier0_samples
          (compress_history hist2 width).2.tier0_bars
        ++ compress_samples hist2 (compress_history hist2 width).2.tier0_samples
            (compress_history hist2 width).2.tier1_samples
            (compress_history hist2 width).2.tier1_bars
        ++ compress_samples hist2
            ((compress_history hist2 width).2.tier0_samples
              + (compress_history hist2 width).2.tier1_samples)
            (compress_history hist2 width).2.tier2_samples
            (compress_history hist2 width).2.tier2_bars := by
  have hbpos : 0 < bars := by omega
  refine ⟨compress_samples_length hist start count bars hb hsc, ?_, ?_⟩
  · rw [compress_samples_eq_map hist start count bars hbpos hb hsc,
      List.getD_eq_getElem _ _ (by simpa using hi)]
    simp only [List.getElem_map, List.getElem_range]
  · by_cases hemp : hist2.isEmpty = true ∨ width = 0
    · unfold compress_history
      rw [if_pos hemp]
      dsimp only
      simp [compress_samples_zero_bars]
    · have hne : hist2.isEmpty = false := by simpa using (not_or.mp hemp).1
      have hw : width ≠ 0 := (not_or.mp hemp).2
      rw [compress_history_eq hist2 width hne hw]
      dsimp only
      rcases Nat.eq_zero_or_pos (compress_alloc hist2.length width).tier1_bars with e1 | e1 <;>
        rcases Nat.eq_zero_or_pos (compress_alloc hist2.length width).tier2_bars with e2 | e2 <;>
        simp [e1, e2, compress_samples_zero_bars]

/-- Witness for C7: bar 0 of 2 bars over the 4 samples `[1,2,3,4]` is the mean
of the first half. -/
theorem bar_mean_concat_witness :
    (compress_samples [(1 : ℚ), 2, 3, 4] 0 4 2).getD 0 0
      = sliceMean [(1 : ℚ), 2, 3, 4] (0 + 0 * 4 / 2) (0 + (0 + 1) * 4 / 2) :=
  (bar_mean_concat [(1 : ℚ), 2, 3, 4] 0 4 2 0 [(1 : ℚ)] 1 (by decide) (by decide)
    (by decide) (by decide)).2.1

/-- Claim C9: the smoother computes `ewma(new, prev, w) = new*w + prev*(1-w)`;
consequently `ewma(x, x, w) = x` for every weight, and
`ewma(0, prev, w) = prev*(1-w)` (exact decay on one synthetic dead sample). -/
theorem ewma_algebra (x prev w : ℚ) :
    ewma x prev w = x * w + prev * (1 - w)
    ∧ ewma x x w = x
    ∧ ewma 0 prev w = prev * (1 - w) := by
  refine ⟨rfl, ?_, ?_⟩ <;> simp only [ewma] <;> ring

set_option maxRecDepth 100000 in
/-- Claim C1 (code bug, evaluation at the failing input): on a history of 125
samples with width 100, `compress_history` returns only 71 values although
`min(width, len) = 100` (the scheme's bar counts still sum to 100): tier1 is
allocated 34 bars over 5 samples and 29 of its bar ranges are empty. -/
theorem compress_values_shortfall :
    (compress_history (List.replicate 125 (0 : ℚ)) 100).1.length = 71
    ∧ min 100 (List.replicate 125 (0 : ℚ)).length = 100
    ∧ (compress_history (List.replicate 125 (0 : ℚ)) 100).2.tier0_bars
      + (compress_history (List.replicate 125 (0 : ℚ)) 100).2.tier1_bars
      + (compress_history (List.replicate 125 (0 : ℚ)) 100).2.tier2_bars = 100 := by
  refine ⟨by decide, by decide, by decide⟩

set_option maxRecDepth 100000 in
/-- Claim C2 (code bug, evaluation at the failing input): on a history of 125
samples with width 100, the scheme returned by `compress_history` stretches
tier1: 34 bars over only 5 samples. -/
theorem compress_stretch :
    (compress_history (List.replicate 125 (0 : ℚ)) 100).2.tier1_bars = 34
    ∧ (compress_history (List.replicate 125 (0 : ℚ)) 100).2.tier1_samples = 5
    ∧ ¬ (compress_history (List.replicate 125 (0 : ℚ)) 100).2.tier1_bars
        ≤ (compress_history (List.replicate 125 (0 : ℚ)) 100).2.tier1_samples := by
  refine ⟨by decide, by decide, by decide⟩

/-- A record with one dead tick on its tombstone, for concrete runs. -/
def sprocTomb : SProc :=
  { name := "a", cpu_ewma := 0, cpu_hist := [0], mem_mb := 0, disk_read_ewma := 0,
    disk_read_hist := [0], disk_write_ewma := 0, disk_write_hist := [0], tombstone := some 1 }

/-- An all-zero snapshot entry, for concrete runs. -/
def psampleZero : PSample :=
  { name := "a", cpu := 0, mem_kb := 0, disk_read := 0, disk_write := 0 }

/-- A one-record table holding `sprocTomb` at pid 1. -/
def tblTomb : ℕ → Option SProc := fun pid => if pid = 1 then some sprocTomb else none

/-- A snapshot containing only pid 1. -/
def snapOne : ℕ → Option PSample := fun pid => if pid = 1 then some psampleZero else none

/-- Claim C3 counterexample: a record Tombstoned for one tick whose pid is
present again in the next snapshot does not return to Alive: after `update`
its tombstone is still `some 1`, not cleared. -/
theorem resurrect_keeps_tombstone_cex :
    Option.map SProc.tombstone (sprocs_update snapOne (1 / 2) tblTomb 1) = some (some 1)
    ∧ Option.map SProc.tombstone (sprocs_update snapOne (1 / 2) tblTomb 1) ≠ some none := by
  exact ⟨by decide, by decide⟩

/-- Claim C3 as amended: when a record's id is present in the snapshot, the
record receives a live sample via `add_sample`, but `add_sample` never touches
the tombstone: a Tombstoned record stays Tombstoned with its dead-tick counter
unchanged, it is not reset to Alive. -/
theorem resurrect_keeps_tombstone (sprocs : ℕ → Option SProc) (snap : ℕ → Option PSample)
    (w : ℚ) (pid : ℕ) (sp : SProc) (p : PSample)
    (ht : sprocs pid = some sp) (hs : snap pid = some p) :
    sprocs_update snap w sprocs pid = some (add_sample sp p w)
    ∧ (add_sample sp p w).tombstone = sp.tombstone := by
  constructor
  · unfold sprocs_update
    rw [ht, hs]
  · rfl

/-- Witness for the amended C3 at a concrete table and snapshot. -/
theorem resurrect_keeps_tombstone_witness :
    sprocs_update snapOne (1 / 2) tblTomb 1 = some (add_sample sprocTomb psampleZero (1 / 2))
    ∧ (add_sample sprocTomb psampleZero (1 / 2)).tombstone = sprocTomb.tombstone :=
  resurrect_keeps_tombstone tblTomb snapOne (1 / 2) 1 sprocTomb psampleZero rfl rfl

lemma add_dead_sample_eq (sp : SProc) (w : ℚ) :
    (add_dead_sample sp w).1
      = { add_sample_helper sp 0 0 0 0 w with tombstone := some (deadTicksOf sp + 1) } := by
  cases hts : sp.tombstone <;>
    simp [add_dead_sample, add_sample_helper, deadTicksOf, hts]

lemma add_dead_sample_ticks (sp : SProc) (w : ℚ) :
    deadTicksOf (add_dead_sample sp w).1 = deadTicksOf sp + 1 := by
  cases hts : sp.tombstone <;>
    simp [add_dead_sample, add_sample_helper, deadTicksOf, hts]

lemma sprocs_update_absent (snap : ℕ → Option PSample) (w : ℚ) (tbl : ℕ → Option SProc)
    (pid : ℕ) (sp : SProc) (h1 : tbl pid = some sp) (h2 : snap pid = none) :
    sprocs_update snap w tbl pid
      = if deadTicksOf sp + 1 ≤ 600 then some (add_dead_sample sp w).1 else none := by
  unfold sprocs_update
  rw [h1, h2]
  cases hts : sp.tombstone with
  | none =>
    simp only [add_dead_sample, add_sample_helper, SAMPLE_LIMIT, deadTicksOf, hts]
    norm_num
  | some t =>
    simp only [add_dead_sample, add_sample_helper, SAMPLE_LIMIT, deadTicksOf, hts]
    by_cases hc : 600 < t + 1
    · rw [if_pos hc, if_neg (by omega)]
    · rw [if_neg hc, if_pos (by omega)]

lemma dead_run_none (w : ℚ) (pid : ℕ) :
    ∀ (snaps : List (ℕ → Option PSample)) (tbl : ℕ → Option SProc),
      (∀ s ∈ snaps, s pid = none) → tbl pid = none →
      (snaps.foldl (fun t s => sprocs_update s w t) tbl) pid = none := by
  intro snaps
  induction snaps with
  | nil => exact fun tbl _ h2 => h2
  | cons s rest ih =>
    intro tbl hall h2
    rw [List.foldl_cons]
    apply ih
    · exact fun s2 hs2 => hall s2 (List.mem_cons_of_mem _ hs2)
    · unfold sprocs_update
      rw [h2, hall s (List.mem_cons_self _ _)]

lemma dead_run_survive (w : ℚ) (pid : ℕ) :
    ∀ (snaps : List (ℕ → Option PSample)) (tbl : ℕ → Option SProc) (sp : SProc),
      (∀ s ∈ snaps, s pid = none) → tbl pid = some sp →
      deadTicksOf sp + snaps.length ≤ 600 →
      ∃ sp2, (snaps.foldl (fun t s => sprocs_update s w t) tbl) pid = some sp2
        ∧ deadTicksOf sp2 = deadTicksOf sp + snaps.length := by
  intro snaps
  induction snaps with
  | nil => exact fun tbl sp _ h2 _ => ⟨sp, h2, by simp⟩
  | cons s rest ih =>
    intro tbl sp hall h2 hle
    rw [List.foldl_cons]
    simp only [List.length_cons] at hle
    have hstep : sprocs_update s w tbl pid = some (add_dead_sample sp w).1 := by
      rw [sprocs_update_absent s w tbl pid sp h2 (hall s (List.mem_cons_self _ _)),
        if_pos (by omega)]
    obtain ⟨sp2, hlook, hdt⟩ := ih (sprocs_update s w tbl) (add_dead_sample sp w).1
      (fun s2 hs2 => hall s2 (List.mem_cons_of_mem _ hs2)) hstep
      (by rw [add_dead_sample_ticks]; omega)
    refine ⟨sp2, hlook, ?_⟩
    rw [hdt, add_dead_sample_ticks]
    simp only [List.length_cons]
    omega

lemma dead_run_reap (w : ℚ) (pid : ℕ) :
    ∀ (snaps : List (ℕ → Option PSample)) (tbl : ℕ → Option SProc) (sp : SProc),
      (∀ s ∈ snaps, s pid = none) → tbl pid = some sp →
      600 < deadTicksOf sp + snaps.length → 0 < snaps.length →
      (snaps.foldl (fun t s => sprocs_update s w t) tbl) pid = none := by
  intro snaps
  induction snaps with
  | nil =>
    intro _ _ _ _ _ h
    simp at h
  | cons s rest ih =>
    intro tbl sp hall h2 hgt _
    rw [List.foldl_cons]
    simp only [List.length_cons] at hgt
    by_cases hc : deadTicksOf sp + 1 ≤ 600
    · have hstep : sprocs_update s w tbl pid = some (add_dead_sample sp w).1 := by
        rw [sprocs_update_absent s w tbl pid sp h2 (hall s (List.mem_cons_self _ _)),
          if_pos hc]
      exact ih (sprocs_update s w tbl) (add_dead_sample sp w).1
        (fun s2 hs2 => hall s2 (List.mem_cons_of_mem _ hs2)) hstep
        (by rw [add_dead_sample_ticks]; omega) (by omega)
    · have hstep : sprocs_update s w tbl pid = none := by
        rw [sprocs_update_absent s w tbl pid sp h2 (hall s (List.mem_cons_self _ _)),
          if_neg hc]
      exact dead_run_none w pid rest (sprocs_update s w tbl)
        (fun s2 hs2 => hall s2 (List.mem_cons_of_mem _ hs2)) hstep

/-- Claim C5: a record absent from the snapshot receives the synthetic
all-zero sample through the same smoothing/history path (`add_sample_helper`
with zeros), its dead-tick counter increments (starting at 1 on the first
absent tick), the record survives the tick exactly when the counter stays at
most 600, and over a run of consecutive absent ticks an initially-Alive
record is gone from the table precisely when the run is at least 601 ticks
long. -/
theorem dead_record_lifecycle (tbl : ℕ → Option SProc) (snap : ℕ → Option PSample)
    (w : ℚ) (pid : ℕ) (sp : SProc) (snaps : List (ℕ → Option PSample))
    (h1 : tbl pid = some sp) (h2 : snap pid = none)
    (h3 : ∀ s ∈ snaps, s pid = none) :
    (add_dead_sample sp w).1
      = { add_sample_helper sp 0 0 0 0 w with tombstone := some (deadTicksOf sp + 1) }
    ∧ sprocs_update snap w tbl pid
      = (if deadTicksOf sp + 1 ≤ 600 then some (add_dead_sample sp w).1 else none)
    ∧ (sp.tombstone = none →
        ((snaps.foldl (fun t s => sprocs_update s w t) tbl) pid = none
          ↔ 601 ≤ snaps.length)) := by
  refine ⟨add_dead_sample_eq sp w, sprocs_update_absent snap w tbl pid sp h1 h2, ?_⟩
  intro h4
  have hdt : deadTicksOf sp = 0 := by simp [deadTicksOf, h4]
  constructor
  · intro hnone
    by_contra hlen
    push_neg at hlen
    obtain ⟨sp2, hlook, _⟩ := dead_run_survive w pid snaps tbl sp h3 h1 (by omega)
    rw [hlook] at hnone
    cases hnone
  · intro hlen
    exact dead_run_reap w pid snaps tbl sp h3 h1 (by omega) (by omega)

/-- An Alive record, for concrete lifecycle runs. -/
def sprocAlive : SProc :=
  { name := "a", cpu_ewma := 0, cpu_hist := [0], mem_mb := 0, disk_read_ewma := 0,
    disk_read_hist := [0], disk_write_ewma := 0, disk_write_hist := [0], tombstone := none }

/-- A one-record table holding `sprocAlive` at pid 1. -/
def tblAlive : ℕ → Option SProc := fun pid => if pid = 1 then some sprocAlive else none

/-- The empty snapshot. -/
def snapNone : ℕ → Option PSample := fun _ => none

/-- Witness for C5: an Alive record absent for 601 consecutive ticks is no
longer in the table. -/
theorem dead_record_lifecycle_witness :
    ((List.replicate 601 snapNone).foldl (fun t s => sprocs_update s (1 / 2) t) tblAlive) 1
      = none :=
  ((dead_record_lifecycle tblAlive snapNone (1 / 2) 1 sprocAlive
      (List.replicate 601 snapNone) rfl rfl
      (fun s hs => by rw [List.eq_of_mem_replicate hs]; rfl)).2.2 rfl).mpr
    (by rw [List.length_replicate])

/-- Claim C8: after `add_sample` or `add_dead_sample`, each of the three
histories has length at most 600, the newest sample sits at index 0, and at
capacity the oldest entry is dropped from the back. -/
theorem history_bounded (sp : SProc) (p : PSample) (w : ℚ) :
    ((add_sample sp p w).cpu_hist.length ≤ 600
      ∧ (add_sample sp p w).cpu_hist.head? = some p.cpu
      ∧ (sp.cpu_hist.length = 600 →
          (add_sample sp p w).cpu_hist = p.cpu :: sp.cpu_hist.dropLast))
    ∧ ((add_sample sp p w).disk_read_hist.length ≤ 600
      ∧ (add_sample sp p w).disk_read_hist.head? = some p.disk_read
      ∧ (sp.disk_read_hist.length = 600 →
          (add_sample sp p w).disk_read_hist = p.disk_read :: sp.disk_read_hist.dropLast))
    ∧ ((add_sample sp p w).disk_write_hist.length ≤ 600
      ∧ (add_sample sp p w).disk_write_hist.head? = some p.disk_write
      ∧ (sp.disk_write_hist.length = 600 →
          (add_sample sp p w).disk_write_hist = p.disk_write :: sp.disk_write_hist.dropLast))
    ∧ ((add_dead_sample sp w).1.cpu_hist.length ≤ 600
      ∧ (add_dead_sample sp w).1.cpu_hist.head? = some 0
      ∧ (sp.cpu_hist.length = 600 →
          (add_dead_sample sp w).1.cpu_hist = 0 :: sp.cpu_hist.dropLast))
    ∧ ((add_dead_sample sp w).1.disk_read_hist.length ≤ 600
      ∧ (add_dead_sample sp w).1.disk_read_hist.head? = some 0
      ∧ (sp.disk_read_hist.length = 600 →
          (add_dead_sample sp w).1.disk_read_hist = 0 :: sp.disk_read_hist.dropLast))
    ∧ ((add_dead_sample sp w).1.disk_write_hist.length ≤ 600
      ∧ (add_dead_sample sp w).1.disk_write_hist.head? = some 0
      ∧ (sp.disk_write_hist.length = 600 →
          (add_dead_sample sp w).1.disk_write_hist = 0 :: sp.disk_write_hist.dropLast)) :=
  ⟨push_sample_spec sp.cpu_hist p.cpu,
   push_sample_spec sp.disk_read_hist p.disk_read,
   push_sample_spec sp.disk_write_hist p.disk_write,
   push_sample_spec sp.cpu_hist 0,
   push_sample_spec sp.disk_read_hist 0,
   push_sample_spec sp.disk_write_hist 0⟩

/-- A record whose three histories are exactly at the 600-sample capacity. -/
def sproc600 : SProc :=
  { name := "b", cpu_ewma := 0, cpu_hist := List.replicate 600 0, mem_mb := 0,
    disk_read_ewma := 0, disk_read_hist := List.replicate 600 0, disk_write_ewma := 0,
    disk_write_hist := List.replicate 600 0, tombstone := none }

/-- Witness for C8 at a record at capacity: the oldest cpu sample is dropped. -/
theorem history_bounded_witness :
    (add_sample sproc600 psampleZero (1 / 2)).cpu_hist
      = psampleZero.cpu :: sproc600.cpu_hist.dropLast :=
  (history_bounded sproc600 psampleZero (1 / 2)).1.2.2
    (by simp only [sproc600, List.length_replicate])

/-- Claim C10: `float_bar` is total: the clamped input makes the quantization
loop stop with an index at most 7, so indexing the 8-glyph table never goes
out of bounds, and every input below 0.03 yields the blank character. -/
theorem float_bar_total (f : ℚ) :
    (float_bar f).isSome = true
    ∧ floatBarLoop (min f 1) 0 ≤ 7
    ∧ (f < 3 / 100 → float_bar f = some ' ') := by
  have hmin : min f 1 ≤ 1 := min_le_right f 1
  have hloop := floatBarLoop_le_seven (min f 1) hmin
  refine ⟨?_, hloop, ?_⟩
  · by_cases h : min f 1 < 3 / 100
    · simp [float_bar, h]
    · have hidx : floatBarLoop (min f 1) 0 < BARS.length := by
        simp only [BARS, List.length_cons, List.length_nil]
        omega
      simp [float_bar, h, List.getElem?_eq_getElem hidx]
  · intro h
    have hlt : min f 1 < 3 / 100 := lt_of_le_of_lt (min_le_left f 1) h
    simp [float_bar, hlt]

/-- Witness for C10: a negative input renders as the blank character. -/
theorem float_bar_total_witness : float_bar (-1) = some ' ' :=
  (float_bar_total (-1)).2.2 (by norm_num)

end Sparktop
